import Mathlib

/-!
Verification of the blog authoring/listing feature of this repository.

The development shallowly embeds the TypeScript source:
* `generateSlug` (src/app/blog/page.tsx, lines 39-40) — slug derivation;
* `handleSubmit` (src/app/blog/page.tsx, lines 157-204) — the composer's
  submit handler of the hosted-table variant;
* `uploadToBucket` (src/app/blog/page.tsx, lines 103-110) — media upload;
* `handleDelete` (src/app/blog/page.tsx, lines 207-219) — optimistic delete;
* `fetchBlogs` (src/app/blog/page.tsx, lines 63-73) — the hosted list read;
* `GET`/`POST` (src/unnamed/part_000) — the file-backed API route.

JavaScript strings are modelled as Lean `String`/`List Char`; the regular
expression classes `\w` and `\s` are modelled over their ASCII meaning;
backend effects (Supabase insert/delete/select, storage upload, file I/O)
are passed in explicitly as `Except`-valued environments.
-/

namespace Blog

/-! ## Definitions -/

/-- ASCII whitespace, the characters matched by the regex class `\s`
(and trimmed by `String.prototype.trim`). -/
def isWsChar (c : Char) : Bool :=
  c = ' ' || c = '\t' || c = '\n' || c = '\r' || c = '\x0b' || c = '\x0c'

/-- The regex class `\w`: ASCII letters, digits and underscore. -/
def isWordChar (c : Char) : Bool :=
  c.isAlphanum || c = '_'

/-- `String.prototype.toLowerCase`, character-wise (ASCII range). -/
def jsToLower (l : List Char) : List Char :=
  l.map Char.toLower

/-- `String.prototype.trim`: drop leading and trailing whitespace. -/
def jsTrim (l : List Char) : List Char :=
  ((l.dropWhile (fun c => isWsChar c)).reverse.dropWhile (fun c => isWsChar c)).reverse

/-- `.replace(/[^\w\s-]/g, '')`: delete every character that is not a word
character, whitespace, or a hyphen. -/
def removeNonSlug (l : List Char) : List Char :=
  l.filter (fun c => isWordChar c || isWsChar c || c = '-')

/-- Left-to-right scan implementing `.replace(/\s+/g, '-')`: each maximal
run of whitespace becomes a single hyphen.  The flag records whether the
scan is currently inside a whitespace run that has already produced its
hyphen. -/
def collapseAux : Bool → List Char → List Char
  | _, [] => []
  | inRun, c :: rest =>
    if isWsChar c then
      if inRun then collapseAux true rest else '-' :: collapseAux true rest
    else c :: collapseAux false rest

/-- `.replace(/\s+/g, '-')` on a whole string. -/
def collapseWs (l : List Char) : List Char :=
  collapseAux false l

/-- `generateSlug` from src/app/blog/page.tsx:
`s.toLowerCase().trim().replace(/[^\w\s-]/g, '').replace(/\s+/g, '-')`. -/
def generateSlug (s : String) : String :=
  String.mk (collapseWs (removeNonSlug (jsTrim (jsToLower s.data))))

/-! ### Spec-side formulation of slug derivation

The specification describes slug derivation as: lower-case, trim
surrounding whitespace, remove all characters that are not word
characters, whitespace, or hyphens, then collapse every run of whitespace
into a single hyphen.  The run-collapsing step is phrased here as a right
fold whose flag records whether the character to the right is whitespace,
so that each run emits exactly one hyphen, at its leftmost character. -/

/-- One step of the right-fold collapse: `p.2` is true when the character
directly to the right is whitespace (so the current run already emitted
its hyphen). -/
def collapseStep (c : Char) (p : List Char × Bool) : List Char × Bool :=
  if isWsChar c then (if p.2 then p.1 else '-' :: p.1, true)
  else (c :: p.1, false)

/-- Spec wording of "collapse every run of whitespace into a single
hyphen", as a right fold. -/
def collapseRunsSpec (l : List Char) : List Char :=
  (l.foldr collapseStep ([], false)).1

/-- Slug derivation as the specification words it. -/
def slugSpec (s : String) : String :=
  String.mk (collapseRunsSpec (removeNonSlug (jsTrim (jsToLower s.data))))

/-! ### Data model

`BlogPost` mirrors the `BlogPost` type of src/app/blog/page.tsx (lines
19-29); optional JS fields become `Option`. -/

structure BlogPost where
  id : Option Nat
  title : String
  slug : String
  content : String
  category : String
  author : String
  date : String
  excerpt : Option String
  image : Option String
deriving DecidableEq

def CATEGORY_OPTIONS : List String :=
  ["education", "healthcare", "social", "technology", "research"]

def AUTHOR_OPTIONS : List String :=
  ["Jane Smith", "Alex Johnson", "Taylor Lee"]

/-! ### The composer (src/app/blog/page.tsx)

The React state of `BlogPage` relevant to submission.  `editor` is `none`
when the Tiptap editor is not initialised, otherwise `some html` where
`html` is what `editor.getHTML()` returns. -/

structure ComposerState where
  title : String
  slug : String
  author : String
  category : String
  editor : Option String
  excerpt : String
  date : String
  coverFile : Option String
  coverUrl : String
  submitting : Bool
  errorMsg : Option String
  posts : List BlogPost
deriving DecidableEq

/-- `isDisabled` (page.tsx line 155):
`submitting || !title || !slug || !author || !category || !editor?.getHTML()`.
A JS string is falsy exactly when it is empty; `editor?.getHTML()` is
`undefined` (falsy) when the editor is `null`. -/
def isDisabled (st : ComposerState) : Bool :=
  st.submitting || st.title == "" || st.slug == "" || st.author == "" ||
    st.category == "" || st.editor.getD "" == ""

/-- Backend effects consumed by one run of `handleSubmit`: the outcome of
the storage upload (if one is attempted), the outcome of the table
insert (the inserted row as returned by `.select()`), and today's date
string. -/
structure SubmitEnv where
  uploadResult : Except String String
  insertResult : Except String BlogPost
  today : String

structure SubmitOut where
  state : ComposerState
  uploadCalled : Bool
  insertCalled : Bool

/-- The insert payload built at page.tsx lines 174-183. -/
def buildPayload (st : ComposerState) (finalCover : Option String)
    (today : String) : BlogPost :=
  { id := none
    title := st.title
    slug := st.slug
    author := st.author
    category := st.category
    content := st.editor.getD ""
    date := if st.date == "" then today else st.date
    excerpt := if st.excerpt == "" then none else some st.excerpt
    image := finalCover }

/-- The insert-and-reset tail of `handleSubmit` (page.tsx lines 185-203). -/
def insertPhase (st : ComposerState) (finalCover : Option String)
    (env : SubmitEnv) (up : Bool) : SubmitOut :=
  let _payload := buildPayload st finalCover env.today
  match env.insertResult with
  | .error e => ⟨{ st with submitting := false, errorMsg := some e }, up, true⟩
  | .ok row =>
    ⟨{ st with
        submitting := false
        posts := row :: st.posts
        title := ""
        slug := ""
        author := AUTHOR_OPTIONS.headD ""
        category := CATEGORY_OPTIONS.headD ""
        excerpt := ""
        date := env.today
        coverFile := none
        coverUrl := ""
        editor := some "" }, up, true⟩

/-- `handleSubmit` (page.tsx lines 157-204): early return when disabled,
optional cover upload whose failure aborts the submission, then the
insert. -/
def handleSubmit (st : ComposerState) (env : SubmitEnv) : SubmitOut :=
  if isDisabled st || st.editor.isNone then ⟨st, false, false⟩
  else
    let st1 := { st with errorMsg := none, submitting := true }
    match st.coverFile with
    | some _ =>
      match env.uploadResult with
      | .error e =>
        ⟨{ st1 with submitting := false, errorMsg := some e }, true, false⟩
      | .ok url => insertPhase st1 (some url) env true
    | none =>
      insertPhase st1 (if st.coverUrl == "" then none else some st.coverUrl)
        env false

/-! ### Deletion (src/app/blog/page.tsx lines 207-219) -/

/-- JS falsiness of the `id?: number` argument: `!id` is true for
`undefined` and for `0`. -/
def jsFalsyId : Option Nat → Bool
  | none => true
  | some n => n == 0

structure DeleteEnv where
  confirm : Bool
  result : Except String Unit

structure DeleteOut where
  posts : List BlogPost
  errorMsg : Option String
  requested : Bool
deriving DecidableEq

/-- `handleDelete`: early return on a falsy id or a declined confirm;
otherwise remove the post optimistically, send the delete, and on failure
restore the saved previous list and surface the error message. -/
def handleDelete (posts : List BlogPost) (errorMsg : Option String)
    (id : Option Nat) (env : DeleteEnv) : DeleteOut :=
  if jsFalsyId id then ⟨posts, errorMsg, false⟩
  else if !env.confirm then ⟨posts, errorMsg, false⟩
  else
    let prev := posts
    let optimistic := posts.filter (fun p => p.id != id)
    match env.result with
    | .error e => ⟨prev, some e, true⟩
    | .ok _ => ⟨optimistic, errorMsg, true⟩

/-! ### The list view and the hosted read (src/app/blog/page.tsx 63-73) -/

structure ViewState where
  posts : List BlogPost
  loading : Bool
  errorMsg : Option String
deriving DecidableEq

/-- The state of `BlogPage` when it mounts (and `fetchBlogs` runs):
`useState<BlogPost[]>([])`, `useState(false)`, `useState(null)`. -/
def initialView : ViewState := ⟨[], false, none⟩

/-- `fetchBlogs`: set loading, clear the error, await the select; on error
surface the message and leave the posts untouched, otherwise store the
returned rows; finally clear loading. -/
def fetchBlogs (st : ViewState) (result : Except String (List BlogPost)) :
    ViewState :=
  match result with
  | .error e => { st with loading := false, errorMsg := some e }
  | .ok rows => { st with loading := false, errorMsg := none, posts := rows }

/-- The order requested from the hosted table:
`.order('date', { ascending: false })`, i.e. dates descending. -/
def dateDesc (a b : BlogPost) : Prop := b.date ≤ a.date

instance : DecidableRel dateDesc :=
  fun a b => inferInstanceAs (Decidable (b.date ≤ a.date))

instance : IsTotal BlogPost dateDesc := ⟨fun a b => le_total b.date a.date⟩

instance : IsTrans BlogPost dateDesc := ⟨fun _ _ _ h1 h2 => le_trans h2 h1⟩

/-- Modelled from the spec: the hosted backend's select-all with
`order('date', ascending: false)` — the query engine itself is an
external collaborator, so its result is modelled as the stored rows
sorted by date descending. -/
def dbSelectByDateDesc (rows : List BlogPost) : List BlogPost :=
  List.insertionSort dateDesc rows

/-! ### The file-backed API route (src/unnamed/part_000)

The flat JSON file is modelled as `Option (List α)`: `none` when
`readFileSync`/`JSON.parse` fails, `some blogs` when it holds the array
`blogs`.  The element type is left generic: the route applies no schema
validation, `POST` appends whatever JSON object it receives. -/

/-- `GET`: read and parse the file, return the array, or a 500 error. -/
def GET {α : Type} (file : Option (List α)) : Except String (List α) :=
  match file with
  | some blogs => .ok blogs
  | none => .error "Failed to load blogs"

/-- `POST`: read the file, push the new blog, rewrite the whole file;
returns the new file contents and the HTTP response. -/
def POST {α : Type} (file : Option (List α)) (newBlog : α) :
    Option (List α) × Except String String :=
  match file with
  | some blogs => (some (blogs ++ [newBlog]), .ok "Blog saved successfully")
  | none => (file, .error "Failed to save blog")

/-! ### Media upload (src/app/blog/page.tsx lines 103-110)

`uploadToBucket` computes
`path = prefix + "/" + Date.now() + "-" + random + "." + ext` where
`ext = (file.name.split('.').pop() || 'dat').toLowerCase()`. -/

/-- `String.prototype.split('.')`: split at every dot; a string without a
dot yields the one-element list holding the whole string. -/
def splitOnDot : List Char → List (List Char)
  | [] => [[]]
  | c :: rest =>
    if c = '.' then [] :: splitOnDot rest
    else
      match splitOnDot rest with
      | [] => [[c]]
      | h :: t => (c :: h) :: t

/-- `(file.name.split('.').pop() || 'dat').toLowerCase()`. -/
def jsExt (name : List Char) : List Char :=
  let seg := (splitOnDot name).getLast?.getD []
  (if seg = [] then "dat".data else seg).map Char.toLower

/-- The generated storage path (page.tsx line 105). -/
def uploadPath (dir : String) (fileName : String) (now : Nat) (rand : String) :
    String :=
  dir ++ "/" ++ toString now ++ "-" ++ rand ++ "." ++ String.mk (jsExt fileName.data)

/-- The ambient effects of one `uploadToBucket` call: `Date.now()`, the
random suffix, the storage upload outcome, and the bucket's public-URL
resolver. -/
structure UploadEnv where
  now : Nat
  rand : String
  result : Except String Unit
  publicUrl : String → String → String

/-- `uploadToBucket`: build the path, upload (throwing on error), then
return the public URL of the stored path. -/
def uploadToBucket (bucket : String) (fileName : String) (dir : String)
    (env : UploadEnv) : Except String String :=
  let path := uploadPath dir fileName env.now env.rand
  match env.result with
  | .error e => .error e
  | .ok _ => .ok (env.publicUrl bucket path)

/-! ### Concrete fixtures used by the witness theorems -/

def samplePost : BlogPost :=
  ⟨some 9, "Old", "old", "<p>old</p>", "social", "Taylor Lee", "2024-05-01",
    none, none⟩

def sampleRow : BlogPost :=
  ⟨some 5, "Title", "title", "<p>body</p>", "education", "Jane Smith",
    "2024-06-01", none, none⟩

def readyState : ComposerState :=
  ⟨"Title", "title", "Jane Smith", "education", some "<p>body</p>", "",
    "2024-06-01", none, "", false, none, [samplePost]⟩

def okSubmitEnv : SubmitEnv :=
  ⟨.ok "https://cdn.example/x.png", .ok sampleRow, "2024-06-02"⟩

def coverState : ComposerState := { readyState with coverFile := some "pic.JPG" }

def failUploadEnv : SubmitEnv :=
  ⟨.error "upload failed", .ok sampleRow, "2024-06-02"⟩

def failDeleteEnv : DeleteEnv := ⟨true, .error "boom"⟩

def okDeleteEnv : DeleteEnv := ⟨true, .ok ()⟩

def sampleUploadEnv : UploadEnv :=
  ⟨1700000000000, "k7f2q", .ok (),
    fun bucket path => "https://cdn.example/" ++ bucket ++ "/" ++ path⟩

/-! ## Theorems -/

/-! ### Equivalence of the two collapse formulations -/

theorem collapseAux_eq_foldr (l : List Char) :
    collapseAux false l = (l.foldr collapseStep ([], false)).1 ∧
    collapseAux true l =
      (if (l.foldr collapseStep ([], false)).2
       then (l.foldr collapseStep ([], false)).1.tail
       else (l.foldr collapseStep ([], false)).1) ∧
    ((l.foldr collapseStep ([], false)).2 = true →
      (l.foldr collapseStep ([], false)).1 =
        '-' :: (l.foldr collapseStep ([], false)).1.tail) := by
  induction l with
  | nil => simp [collapseAux]
  | cons c rest ih =>
    obtain ⟨ih1, ih2, ih3⟩ := ih
    by_cases hc : isWsChar c
    · by_cases hq : (rest.foldr collapseStep ([], false)).2
      · have hhd := ih3 hq
        refine ⟨?_, ?_, ?_⟩
        · show collapseAux false (c :: rest) =
            (collapseStep c (rest.foldr collapseStep ([], false))).1
          rw [collapseAux, if_pos hc, if_neg Bool.false_ne_true, ih2, if_pos hq,
            collapseStep, if_pos hc, if_pos hq]
          exact hhd.symm
        · show collapseAux true (c :: rest) = _
          rw [collapseAux, if_pos hc, if_pos rfl, ih2, if_pos hq]
          rw [List.foldr_cons, collapseStep, if_pos hc, if_pos hq]
          simp
        · intro _
          rw [List.foldr_cons, collapseStep, if_pos hc, if_pos hq]
          exact hhd
      · refine ⟨?_, ?_, ?_⟩
        · show collapseAux false (c :: rest) = _
          rw [collapseAux, if_pos hc, if_neg Bool.false_ne_true, ih2,
            if_neg hq, List.foldr_cons, collapseStep, if_pos hc, if_neg hq]
        · show collapseAux true (c :: rest) = _
          rw [collapseAux, if_pos hc, if_pos rfl, ih2, if_neg hq,
            List.foldr_cons, collapseStep, if_pos hc, if_neg hq]
          simp
        · intro _
          rw [List.foldr_cons, collapseStep, if_pos hc, if_neg hq]
          simp
    · refine ⟨?_, ?_, ?_⟩
      · show collapseAux false (c :: rest) = _
        rw [collapseAux, if_neg hc, ih1, List.foldr_cons, collapseStep, if_neg hc]
      · show collapseAux true (c :: rest) = _
        rw [collapseAux, if_neg hc, ih1, List.foldr_cons, collapseStep, if_neg hc]
        simp
      · intro hflag
        rw [List.foldr_cons, collapseStep, if_neg hc] at hflag
        simp at hflag

theorem collapseWs_eq_spec (l : List Char) : collapseWs l = collapseRunsSpec l :=
  (collapseAux_eq_foldr l).1

/-! ### Idempotence of slug derivation -/

theorem toNat_ofNat_of_valid {n : Nat} (h : n.isValidChar) :
    (Char.ofNat n).toNat = n := by
  rw [Char.ofNat, dif_pos h]
  rfl

theorem toLower_toLower (c : Char) : c.toLower.toLower = c.toLower := by
  by_cases h : c.toNat ≥ 65 ∧ c.toNat ≤ 90
  · have hv : (c.toNat + 32).isValidChar := Or.inl (by omega)
    have h1 : c.toLower = Char.ofNat (c.toNat + 32) := by
      rw [Char.toLower, if_pos h]
    rw [h1, Char.toLower, toNat_ofNat_of_valid hv, if_neg (by omega)]
  · have h1 : c.toLower = c := by rw [Char.toLower, if_neg h]
    rw [h1, h1]

/-- Characters emitted by the collapse scan are hyphens or non-whitespace
characters of the input. -/
theorem mem_collapseAux {c : Char} :
    ∀ (b : Bool) (l : List Char), c ∈ collapseAux b l →
      c = '-' ∨ (c ∈ l ∧ isWsChar c = false)
  | _, [], h => by simp [collapseAux] at h
  | b, d :: rest, h => by
    rw [collapseAux] at h
    by_cases hd : isWsChar d
    · rw [if_pos hd] at h
      have h' : c = '-' ∨ c ∈ collapseAux true rest := by
        cases b with
        | false => rw [if_neg Bool.false_ne_true] at h; exact List.mem_cons.1 h
        | true => rw [if_pos rfl] at h; exact Or.inr h
      rcases h' with h' | h'
      · exact Or.inl h'
      · rcases mem_collapseAux true rest h' with h'' | ⟨hmem, hws⟩
        · exact Or.inl h''
        · exact Or.inr ⟨List.mem_cons_of_mem d hmem, hws⟩
    · rw [if_neg hd] at h
      rcases List.mem_cons.1 h with h' | h'
      · refine Or.inr ⟨?_, ?_⟩
        · rw [h']; exact List.mem_cons_self d rest
        · rw [h']; exact Bool.eq_false_iff.2 hd
      · rcases mem_collapseAux false rest h' with h'' | ⟨hmem, hws⟩
        · exact Or.inl h''
        · exact Or.inr ⟨List.mem_cons_of_mem d hmem, hws⟩

/-- The collapse scan is the identity on whitespace-free input. -/
theorem collapseAux_eq_self {l : List Char} (h : ∀ c ∈ l, isWsChar c = false) :
    ∀ b, collapseAux b l = l := by
  induction l with
  | nil => intro b; rfl
  | cons d rest ih =>
    intro b
    have hd : isWsChar d = false := h d (List.mem_cons_self d rest)
    rw [collapseAux, if_neg (by simp [hd]),
      ih (fun c hc => h c (List.mem_cons_of_mem d hc)) false]

theorem dropWhile_eq_self {p : Char → Bool} {l : List Char}
    (h : ∀ c ∈ l, p c = false) : l.dropWhile p = l := by
  cases l with
  | nil => rfl
  | cons d rest =>
    rw [List.dropWhile_cons, if_neg (by simp [h d (List.mem_cons_self d rest)])]

theorem map_eq_self_of_fixed {f : Char → Char} :
    ∀ {l : List Char}, (∀ c ∈ l, f c = c) → l.map f = l
  | [], _ => rfl
  | d :: rest, h => by
    rw [List.map_cons, h d (List.mem_cons_self d rest),
      map_eq_self_of_fixed fun c hc => h c (List.mem_cons_of_mem d hc)]

/-- Every character of a derived slug is fixed by lower-casing, is not
whitespace, and is a word character or a hyphen. -/
theorem mem_generateSlug {s : String} {c : Char} (h : c ∈ (generateSlug s).data) :
    c.toLower = c ∧ isWsChar c = false ∧ (isWordChar c || c = '-') = true := by
  rcases mem_collapseAux false _ h with hc | ⟨hmem, hws⟩
  · refine ⟨by rw [hc]; rfl, by rw [hc]; rfl, by rw [hc]; rfl⟩
  · have hmem0 : c ∈ (jsTrim (jsToLower s.data)).filter
        (fun c => isWordChar c || isWsChar c || c = '-') := hmem
    have hfilter := List.of_mem_filter hmem0
    have hmem' : c ∈ jsTrim (jsToLower s.data) := List.mem_of_mem_filter hmem0
    have hmem'' : c ∈ jsToLower s.data := by
      rw [jsTrim] at hmem'
      have h1 := List.mem_reverse.1 hmem'
      have h2 : c ∈ ((jsToLower s.data).dropWhile (fun c => isWsChar c)).reverse :=
        (List.dropWhile_sublist _).subset h1
      exact (List.dropWhile_sublist _).subset (List.mem_reverse.1 h2)
    obtain ⟨a, _, ha⟩ := List.mem_map.1 hmem''
    have hlow : c.toLower = c := by rw [← ha, toLower_toLower]
    refine ⟨hlow, hws, ?_⟩
    simp only [Bool.or_eq_true] at hfilter ⊢
    rcases hfilter with (hw | hs) | hh
    · exact Or.inl hw
    · rw [hws] at hs; cases hs
    · exact Or.inr hh

/-- Claim C2: slug derivation is idempotent: for every string `s`,
`generateSlug (generateSlug s)` equals `generateSlug s`. -/
theorem claim_C2_slug_idempotent (s : String) :
    generateSlug (generateSlug s) = generateSlug s := by
  have hall : ∀ c ∈ (generateSlug s).data,
      c.toLower = c ∧ isWsChar c = false ∧ (isWordChar c || c = '-') = true :=
    fun c hc => mem_generateSlug hc
  have hlower : jsToLower (generateSlug s).data = (generateSlug s).data := by
    rw [jsToLower]
    exact map_eq_self_of_fixed fun c hc => (hall c hc).1
  have hnows : ∀ c ∈ (generateSlug s).data, isWsChar c = false :=
    fun c hc => (hall c hc).2.1
  have htrim : jsTrim (generateSlug s).data = (generateSlug s).data := by
    rw [jsTrim, dropWhile_eq_self hnows,
      dropWhile_eq_self (fun c hc => hnows c (List.mem_reverse.1 hc)),
      List.reverse_reverse]
  have hfilter : removeNonSlug (generateSlug s).data = (generateSlug s).data := by
    rw [removeNonSlug]
    refine List.filter_eq_self.2 fun c hc => ?_
    have := (hall c hc).2.2
    simp only [Bool.or_eq_true] at this ⊢
    rcases this with hw | hh
    · exact Or.inl (Or.inl hw)
    · exact Or.inr hh
  have hcollapse : collapseWs (generateSlug s).data = (generateSlug s).data :=
    collapseAux_eq_self hnows false
  show String.mk (collapseWs (removeNonSlug (jsTrim (jsToLower
      (generateSlug s).data)))) = generateSlug s
  rw [hlower, htrim, hfilter, hcollapse]

/-- Claim C1: for every input string, `generateSlug` returns the result of
lower-casing, trimming surrounding whitespace, removing all characters
that are not word characters, whitespace, or hyphens, then collapsing
every run of whitespace into a single hyphen (the spec-side formulation
`slugSpec`); in particular it maps "Hello, World!  2024" to
"hello-world-2024". -/
theorem claim_C1_slug_derivation :
    (∀ s : String, generateSlug s = slugSpec s) ∧
    generateSlug "Hello, World!  2024" = "hello-world-2024" :=
  ⟨fun _ => congrArg String.mk (collapseWs_eq_spec _), by decide⟩

/-! ### The submit handler -/

/-- Claim C3: whenever a required field (title, slug, author, category,
content) is empty or a submission is already in flight, `handleSubmit`
issues no insert call and leaves the stored post list unchanged. -/
theorem claim_C3_submit_guard (st : ComposerState) (env : SubmitEnv)
    (h : st.submitting = true ∨ st.title = "" ∨ st.slug = "" ∨ st.author = "" ∨
      st.category = "" ∨ st.editor.getD "" = "") :
    (handleSubmit st env).insertCalled = false ∧
    (handleSubmit st env).state.posts = st.posts := by
  have hd : isDisabled st = true := by
    rw [isDisabled]
    rcases h with h | h | h | h | h | h <;> simp [h]
  rw [handleSubmit, hd]
  simp

theorem claim_C3_submit_guard_witness :
    (handleSubmit { readyState with title := "" } okSubmitEnv).insertCalled = false ∧
    (handleSubmit { readyState with title := "" } okSubmitEnv).state.posts =
      ({ readyState with title := "" } : ComposerState).posts :=
  claim_C3_submit_guard _ _ (Or.inr (Or.inl rfl))

/-- Claim C4: in the hosted-table variant, a failed cover upload aborts the
submission: no insert is issued, the post list is unchanged, the composer
leaves the submitting state with the error message surfaced, and every
form field keeps the user's input. -/
theorem claim_C4_upload_failure_aborts (st : ComposerState) (env : SubmitEnv)
    (f e : String) (hd : isDisabled st = false) (hf : st.coverFile = some f)
    (he : env.uploadResult = .error e) :
    (handleSubmit st env).uploadCalled = true ∧
    (handleSubmit st env).insertCalled = false ∧
    (handleSubmit st env).state.posts = st.posts ∧
    (handleSubmit st env).state.submitting = false ∧
    (handleSubmit st env).state.errorMsg = some e ∧
    (handleSubmit st env).state.title = st.title ∧
    (handleSubmit st env).state.slug = st.slug ∧
    (handleSubmit st env).state.author = st.author ∧
    (handleSubmit st env).state.category = st.category ∧
    (handleSubmit st env).state.editor = st.editor ∧
    (handleSubmit st env).state.excerpt = st.excerpt ∧
    (handleSubmit st env).state.date = st.date ∧
    (handleSubmit st env).state.coverFile = st.coverFile ∧
    (handleSubmit st env).state.coverUrl = st.coverUrl := by
  have hne : st.editor.isNone = false := by
    rcases hv : st.editor with _ | v
    · rw [isDisabled, hv] at hd; simp at hd
    · simp
  rw [handleSubmit, hd, hne]
  simp [hf, he]

theorem claim_C4_upload_failure_aborts_witness :
    (handleSubmit coverState failUploadEnv).uploadCalled = true ∧
    (handleSubmit coverState failUploadEnv).insertCalled = false ∧
    (handleSubmit coverState failUploadEnv).state.posts = coverState.posts ∧
    (handleSubmit coverState failUploadEnv).state.submitting = false ∧
    (handleSubmit coverState failUploadEnv).state.errorMsg = some "upload failed" ∧
    (handleSubmit coverState failUploadEnv).state.title = coverState.title ∧
    (handleSubmit coverState failUploadEnv).state.slug = coverState.slug ∧
    (handleSubmit coverState failUploadEnv).state.author = coverState.author ∧
    (handleSubmit coverState failUploadEnv).state.category = coverState.category ∧
    (handleSubmit coverState failUploadEnv).state.editor = coverState.editor ∧
    (handleSubmit coverState failUploadEnv).state.excerpt = coverState.excerpt ∧
    (handleSubmit coverState failUploadEnv).state.date = coverState.date ∧
    (handleSubmit coverState failUploadEnv).state.coverFile = coverState.coverFile ∧
    (handleSubmit coverState failUploadEnv).state.coverUrl = coverState.coverUrl :=
  claim_C4_upload_failure_aborts coverState failUploadEnv "pic.JPG" "upload failed"
    (by decide) rfl rfl

/-- Claim C5: a successful create prepends the returned row to the
in-memory list, where (the row being fresh) it appears exactly once; the
file-backed `POST` appends the created post at the end of the stored
array. -/
theorem claim_C5_create_position (st : ComposerState) (env : SubmitEnv)
    (row : BlogPost) (A : List BlogPost) (p : BlogPost)
    (hd : isDisabled st = false)
    (hup : st.coverFile = none ∨ ∃ u, env.uploadResult = .ok u)
    (hins : env.insertResult = .ok row) (hfresh : row ∉ st.posts) :
    (handleSubmit st env).state.posts = row :: st.posts ∧
    ((handleSubmit st env).state.posts).count row = 1 ∧
    (POST (some A) p).1 = some (A ++ [p]) ∧
    (A ++ [p]).getLast? = some p := by
  have hne : st.editor.isNone = false := by
    rcases hv : st.editor with _ | v
    · rw [isDisabled, hv] at hd; simp at hd
    · simp
  have hposts : (handleSubmit st env).state.posts = row :: st.posts := by
    rw [handleSubmit, hd, hne]
    rcases hup with hup | ⟨u, hup⟩
    · simp [hup, insertPhase, hins]
    · rcases hc : st.coverFile with _ | f
      · simp [hc, insertPhase, hins]
      · simp [hc, hup, insertPhase, hins]
  refine ⟨hposts, ?_, by simp [POST], by simp⟩
  rw [hposts, List.count_cons_self, List.count_eq_zero.2 hfresh]

theorem claim_C5_create_position_witness :
    (handleSubmit readyState okSubmitEnv).state.posts = sampleRow :: readyState.posts ∧
    ((handleSubmit readyState okSubmitEnv).state.posts).count sampleRow = 1 ∧
    (POST (some [samplePost]) sampleRow).1 = some ([samplePost] ++ [sampleRow]) ∧
    ([samplePost] ++ [sampleRow]).getLast? = some sampleRow :=
  claim_C5_create_position readyState okSubmitEnv sampleRow [samplePost] sampleRow
    (by decide) (Or.inl rfl) rfl (by decide)

/-! ### The delete handler -/

/-- Claim C6: for an id present in the list, a delete whose backend
request fails restores the pre-delete list and surfaces the error
message; one whose backend request succeeds leaves the list with every
post of that id removed. -/
theorem claim_C6_delete (posts : List BlogPost) (msg : Option String) (i : Nat)
    (e : String) (envF envS : DeleteEnv)
    (hi : i ≠ 0) (hpresent : ∃ p ∈ posts, p.id = some i)
    (hcF : envF.confirm = true) (hrF : envF.result = .error e)
    (hcS : envS.confirm = true) (hrS : envS.result = .ok ()) :
    (handleDelete posts msg (some i) envF).posts = posts ∧
    (handleDelete posts msg (some i) envF).errorMsg = some e ∧
    (handleDelete posts msg (some i) envF).requested = true ∧
    (handleDelete posts msg (some i) envS).posts =
      posts.filter (fun p => p.id != some i) ∧
    (handleDelete posts msg (some i) envS).requested = true := by
  have hfalsy : jsFalsyId (some i) = false := by simp [jsFalsyId, hi]
  rw [handleDelete, handleDelete, hfalsy, hcF, hcS, hrF, hrS]
  simp

theorem claim_C6_delete_witness :
    (handleDelete [samplePost] none (some 9) failDeleteEnv).posts = [samplePost] ∧
    (handleDelete [samplePost] none (some 9) failDeleteEnv).errorMsg = some "boom" ∧
    (handleDelete [samplePost] none (some 9) failDeleteEnv).requested = true ∧
    (handleDelete [samplePost] none (some 9) okDeleteEnv).posts =
      [samplePost].filter (fun p => p.id != some 9) ∧
    (handleDelete [samplePost] none (some 9) okDeleteEnv).requested = true :=
  claim_C6_delete [samplePost] none 9 "boom" failDeleteEnv okDeleteEnv
    (by decide) ⟨samplePost, List.mem_cons_self _ _, rfl⟩ rfl rfl rfl rfl

/-- Claim C10: a falsy identifier (undefined or 0) makes the delete
handler a no-op: no backend request, list and error message unchanged. -/
theorem claim_C10_falsy_id (posts : List BlogPost) (msg : Option String)
    (id : Option Nat) (env : DeleteEnv) (h : id = none ∨ id = some 0) :
    (handleDelete posts msg id env).posts = posts ∧
    (handleDelete posts msg id env).errorMsg = msg ∧
    (handleDelete posts msg id env).requested = false := by
  have hfalsy : jsFalsyId id = true := by
    rcases h with h | h <;> simp [h, jsFalsyId]
  rw [handleDelete, hfalsy]
  simp

theorem claim_C10_falsy_id_witness :
    (handleDelete [samplePost] none (some 0) okDeleteEnv).posts = [samplePost] ∧
    (handleDelete [samplePost] none (some 0) okDeleteEnv).errorMsg = none ∧
    (handleDelete [samplePost] none (some 0) okDeleteEnv).requested = false :=
  claim_C10_falsy_id [samplePost] none (some 0) okDeleteEnv (Or.inr rfl)

/-! ### The upload path and its extension computation -/

theorem splitOnDot_ne_nil : ∀ l : List Char, splitOnDot l ≠ []
  | [] => by simp [splitOnDot]
  | c :: rest => by
    rw [splitOnDot]
    by_cases hc : c = '.'
    · simp [hc]
    · rw [if_neg hc]
      rcases hr : splitOnDot rest with _ | ⟨h, t⟩ <;> simp

theorem splitOnDot_of_not_mem {l : List Char} (h : '.' ∉ l) :
    splitOnDot l = [l] := by
  induction l with
  | nil => rfl
  | cons c rest ih =>
    have hc : ¬ c = '.' := fun hc => h (by rw [hc]; exact List.mem_cons_self _ _)
    rw [splitOnDot, if_neg hc, ih (fun hm => h (List.mem_cons_of_mem c hm))]

theorem two_le_length_splitOnDot {l : List Char} (h : '.' ∈ l) :
    2 ≤ (splitOnDot l).length := by
  induction l with
  | nil => cases h
  | cons c rest ih =>
    by_cases hc : c = '.'
    · rw [splitOnDot, if_pos hc, List.length_cons]
      have hne := splitOnDot_ne_nil rest
      have : 1 ≤ (splitOnDot rest).length := by
        rcases hr : splitOnDot rest with _ | ⟨a, t⟩
        · exact absurd hr hne
        · simp
      omega
    · have hm : '.' ∈ rest := by
        rcases List.mem_cons.1 h with h' | h'
        · exact absurd h'.symm hc
        · exact h'
      rw [splitOnDot, if_neg hc]
      rcases hr : splitOnDot rest with _ | ⟨a, t⟩
      · exact absurd hr (splitOnDot_ne_nil rest)
      · rw [hr] at ih
        simpa using ih hm

theorem getLast_splitOnDot_append (xs ys : List Char) :
    (splitOnDot (xs ++ '.' :: ys)).getLast? = (splitOnDot ys).getLast? := by
  induction xs with
  | nil =>
    rw [List.nil_append, splitOnDot, if_pos rfl]
    rcases hr : splitOnDot ys with _ | ⟨a, t⟩
    · exact absurd hr (splitOnDot_ne_nil ys)
    · rw [List.getLast?_cons_cons]
  | cons x xs ih =>
    rw [List.cons_append, splitOnDot]
    by_cases hx : x = '.'
    · rw [if_pos hx]
      rcases hr : splitOnDot (xs ++ '.' :: ys) with _ | ⟨a, t⟩
      · exact absurd hr (splitOnDot_ne_nil _)
      · rw [List.getLast?_cons_cons, ← hr]
        exact ih
    · rw [if_neg hx]
      have hlen : 2 ≤ (splitOnDot (xs ++ '.' :: ys)).length :=
        two_le_length_splitOnDot (by simp)
      rcases hr : splitOnDot (xs ++ '.' :: ys) with _ | ⟨a, t⟩
      · exact absurd hr (splitOnDot_ne_nil _)
      · rcases ht : t with _ | ⟨b, t2⟩
        · rw [hr, ht] at hlen; simp at hlen
        · rw [hr, ht] at ih
          simpa using ih

theorem jsExt_no_dot {name : List Char} (h : '.' ∉ name) (hne : name ≠ []) :
    jsExt name = name.map Char.toLower := by
  rw [jsExt, splitOnDot_of_not_mem h]
  simp [hne]

theorem jsExt_after_dot {xs ys : List Char} (h : '.' ∉ ys) (hne : ys ≠ []) :
    jsExt (xs ++ '.' :: ys) = ys.map Char.toLower := by
  rw [jsExt, getLast_splitOnDot_append, splitOnDot_of_not_mem h]
  simp [hne]

theorem jsExt_trailing_dot (xs : List Char) :
    jsExt (xs ++ ['.']) = "dat".data := by
  rw [jsExt, getLast_splitOnDot_append xs []]
  decide

/-- Claim C7 counterexample: a file name with no dot at all — "photo" —
does not fall back to the generic extension: the generated path ends in
".photo", not ".dat", so the claim's "defaulting to a generic extension
when the file name has no extension" is false on the code. -/
theorem claim_C7_counterexample :
    ('.' ∈ ("photo" : String).data → False) ∧
    jsExt ("photo" : String).data = ("photo" : String).data ∧
    jsExt ("photo" : String).data ≠ ("dat" : String).data ∧
    uploadPath "blogs/post/cover" "photo" 1700000000000 "k7f2q" =
      "blogs/post/cover/1700000000000-k7f2q.photo" ∧
    uploadPath "blogs/post/cover" "photo" 1700000000000 "k7f2q" ≠
      "blogs/post/cover/1700000000000-k7f2q.dat" := by
  decide

/-- Claim C7 (amended): on success the upload helper stores the asset
under prefix/timestamp-random.ext and returns the bucket's public URL of
that path; ext is the segment after the last dot of the file name,
lower-cased (when the name has no dot, that segment is the whole name);
the generic extension "dat" is used exactly when that segment is empty
(empty name or name ending in a dot). -/
theorem claim_C7_upload_amended (bucket fileName dir : String) (env : UploadEnv)
    (xs ys zs ws : List Char)
    (h : env.result = .ok ()) (hys1 : '.' ∉ ys) (hys2 : ys ≠ [])
    (hzs1 : '.' ∉ zs) (hzs2 : zs ≠ []) :
    uploadToBucket bucket fileName dir env =
      .ok (env.publicUrl bucket (uploadPath dir fileName env.now env.rand)) ∧
    uploadPath dir fileName env.now env.rand =
      dir ++ "/" ++ toString env.now ++ "-" ++ env.rand ++ "." ++
        String.mk (jsExt fileName.data) ∧
    jsExt (xs ++ '.' :: ys) = ys.map Char.toLower ∧
    jsExt zs = zs.map Char.toLower ∧
    jsExt (ws ++ ['.']) = "dat".data ∧
    jsExt [] = "dat".data := by
  refine ⟨?_, rfl, jsExt_after_dot hys1 hys2, jsExt_no_dot hzs1 hzs2,
    jsExt_trailing_dot ws, rfl⟩
  rw [uploadToBucket, h]

theorem claim_C7_upload_amended_witness :
    uploadToBucket "blog-images" "Cover Photo.JPG" "blogs/title/cover" sampleUploadEnv =
      .ok (sampleUploadEnv.publicUrl "blog-images"
        (uploadPath "blogs/title/cover" "Cover Photo.JPG" sampleUploadEnv.now
          sampleUploadEnv.rand)) ∧
    uploadPath "blogs/title/cover" "Cover Photo.JPG" sampleUploadEnv.now
        sampleUploadEnv.rand =
      "blogs/title/cover" ++ "/" ++ toString sampleUploadEnv.now ++ "-" ++
        sampleUploadEnv.rand ++ "." ++
        String.mk (jsExt ("Cover Photo.JPG" : String).data) ∧
    jsExt (("Cover Photo" : String).data ++ '.' :: ("JPG" : String).data) =
      ("JPG" : String).data.map Char.toLower ∧
    jsExt ("photo" : String).data = ("photo" : String).data.map Char.toLower ∧
    jsExt (("file" : String).data ++ ['.']) = "dat".data ∧
    jsExt [] = "dat".data :=
  claim_C7_upload_amended "blog-images" "Cover Photo.JPG" "blogs/title/cover"
    sampleUploadEnv ("Cover Photo" : String).data ("JPG" : String).data
    ("photo" : String).data ("file" : String).data
    rfl (by decide) (by decide) (by decide) (by decide)

/-! ### The file-backed API and the list read -/

/-- Claim C8: a file-backed `POST` of `p` onto stored array `A` rewrites
the file to `A ++ [p]` and answers success; a subsequent `GET` returns
exactly that array, whose last element is deep-equal to the submitted
object. -/
theorem claim_C8_file_roundtrip {α : Type} (A : List α) (p : α) :
    (POST (some A) p).1 = some (A ++ [p]) ∧
    (POST (some A) p).2 = .ok "Blog saved successfully" ∧
    GET (POST (some A) p).1 = .ok (A ++ [p]) ∧
    (A ++ [p]).getLast? = some p := by
  refine ⟨rfl, rfl, rfl, by simp⟩

/-- Claim C9: an unreadable backing table surfaces as an empty post list
plus an error message; an unreadable backing file surfaces as an error
response; on success the hosted read stores all rows ordered by date
descending (a sorted permutation of the stored rows) and the file read
returns the stored array in insertion order. -/
theorem claim_C9_listAll (rows : List BlogPost) (e : String)
    (A : List BlogPost) :
    (fetchBlogs initialView (.error e)).posts = [] ∧
    (fetchBlogs initialView (.error e)).errorMsg = some e ∧
    (fetchBlogs initialView (.ok (dbSelectByDateDesc rows))).posts =
      dbSelectByDateDesc rows ∧
    (dbSelectByDateDesc rows).Perm rows ∧
    List.Sorted dateDesc (dbSelectByDateDesc rows) ∧
    GET (some A) = .ok A ∧
    GET (none : Option (List BlogPost)) = .error "Failed to load blogs" := by
  refine ⟨rfl, rfl, rfl, List.perm_insertionSort dateDesc rows,
    List.sorted_insertionSort dateDesc rows, rfl, rfl⟩

end Blog
